import Mathlib

/-!
Verification of the token price/liquidity discovery and refresh-scheduler
services of the Website repository.

The development shallowly embeds the two JavaScript services:

* `TokenService` — the on-chain discovery/enrichment pipeline
  (`src/unnamed/part_000`): the WETH price oracle `fetchWethPrice`, the
  tick-to-price conversion `calculatePriceFromTick`, the multicall
  encoder/decoder `getTokensBasicInfo`, the authoritative-pool selection and
  price enrichment `enrichWithPoolData`, the persistence step
  `processAndStoreTokensData`, and the `isUpdating` overlap guard of
  `initializeDataFetching`.

* `TokenDataService` — the rate-budgeted refresh scheduler
  (`src/backend/services/tokenDataService.js`): the per-minute API call
  counter, `fetchPriceData`, `updatePriorityTokens` and
  `updateNonPriorityTokens`.

JavaScript `number` values are embedded as real numbers (ℝ); the floating
point artefacts of the source are out of scope of the claims settled here
except where a claim is about the choice of evaluation form, which is
modelled structurally.  Decimal strings that the source feeds to `BigInt`
are parsed by `parseDecNat`.  Mutable module state is passed explicitly,
and each `async` function that the source wraps in `try/catch` is embedded
as a total function whose error branch mirrors the `catch` block.
-/

namespace TokenService

/-- Decimal-string parsing as performed by the JavaScript `BigInt(str)`
constructor on canonical decimal strings (the liquidity and supply values
serialized by the service). -/
def parseDecNat (s : String) : ℕ :=
  s.data.foldl (fun acc c => acc * 10 + (c.toNat - 48)) 0

/-- Direct power form of the tick price: `Math.pow(base, exponent)` with
`base = 1.0001` (line 513 of the service). -/
noncomputable def tickPowForm (tick : ℤ) : ℝ :=
  (1.0001 : ℝ) ^ tick

/-- Logarithmic form of the tick price:
`Math.exp(exponent * Math.log(base))` (lines 510–511 of the service). -/
noncomputable def tickLogForm (tick : ℤ) : ℝ :=
  Real.exp ((tick : ℝ) * Real.log (1.0001 : ℝ))

/-- Embedding of `calculatePriceFromTick(tick, decimals0, decimals1)`
(lines 499–524): the logarithmic form is selected when `|tick| > 1000`,
the direct power form otherwise, and the result is scaled by
`Math.pow(10, decimals1 - decimals0)`. -/
noncomputable def calculatePriceFromTick (tick : ℤ) (decimals0 decimals1 : ℕ) : ℝ :=
  (if 1000 < |tick| then tickLogForm tick else tickPowForm tick) *
    (10 : ℝ) ^ ((decimals1 : ℤ) - (decimals0 : ℤ))

/-- Over the reals the two evaluation forms of `1.0001 ^ tick` coincide
exactly. -/
theorem tickLogForm_eq_tickPowForm (t : ℤ) : tickLogForm t = tickPowForm t := by
  have hb : (0 : ℝ) < 1.0001 := by norm_num
  rw [tickLogForm, tickPowForm, mul_comm, ← Real.rpow_def_of_pos hb, Real.rpow_intCast]

/-- Closed form of `calculatePriceFromTick`: both branches compute
`1.0001 ^ tick * 10 ^ (decimals1 - decimals0)`. -/
theorem calculatePriceFromTick_eq (t : ℤ) (d0 d1 : ℕ) :
    calculatePriceFromTick t d0 d1 =
      (1.0001 : ℝ) ^ t * (10 : ℝ) ^ ((d1 : ℤ) - (d0 : ℤ)) := by
  unfold calculatePriceFromTick
  split
  · rw [tickLogForm_eq_tickPowForm, tickPowForm]
  · rw [tickPowForm]

/-- The price computed from any tick is strictly positive. -/
theorem calculatePriceFromTick_pos (t : ℤ) (d0 d1 : ℕ) :
    0 < calculatePriceFromTick t d0 d1 := by
  rw [calculatePriceFromTick_eq]
  exact mul_pos (zpow_pos (by norm_num) _) (zpow_pos (by norm_num) _)

/-- C2.  `calculatePriceFromTick(t, d0, d1)` computes
`1.0001 ^ t * 10 ^ (d1 - d0)` for every tick and decimal pair; the direct
power form and the logarithmic form agree within relative tolerance `1e-9`
whenever `|t| ≤ 1000` (in the real-number embedding they agree exactly);
and at `t = 200000` and `t = -200000` the logarithmic form is the one used
and the result is strictly positive (in particular finite and nonzero). -/
theorem spec_c2_calculatePriceFromTick :
    (∀ (t : ℤ) (d0 d1 : ℕ),
        calculatePriceFromTick t d0 d1 =
          (1.0001 : ℝ) ^ t * (10 : ℝ) ^ ((d1 : ℤ) - (d0 : ℤ)))
    ∧ (∀ t : ℤ, |t| ≤ 1000 →
        |tickPowForm t - tickLogForm t| ≤ 1e-9 * |tickPowForm t|)
    ∧ (∀ d0 d1 : ℕ,
        calculatePriceFromTick 200000 d0 d1 =
          tickLogForm 200000 * (10 : ℝ) ^ ((d1 : ℤ) - (d0 : ℤ))
        ∧ 0 < calculatePriceFromTick 200000 d0 d1)
    ∧ (∀ d0 d1 : ℕ,
        calculatePriceFromTick (-200000) d0 d1 =
          tickLogForm (-200000) * (10 : ℝ) ^ ((d1 : ℤ) - (d0 : ℤ))
        ∧ 0 < calculatePriceFromTick (-200000) d0 d1) := by
  refine ⟨fun t d0 d1 => calculatePriceFromTick_eq t d0 d1, ?_, ?_, ?_⟩
  · intro t _
    rw [tickLogForm_eq_tickPowForm, sub_self, abs_zero]
    positivity
  · intro d0 d1
    constructor
    · unfold calculatePriceFromTick
      rw [if_pos (by decide)]
    · exact calculatePriceFromTick_pos _ _ _
  · intro d0 d1
    constructor
    · unfold calculatePriceFromTick
      rw [if_pos (by decide)]
    · exact calculatePriceFromTick_pos _ _ _

/-- Witness for C2: the tolerance clause instantiated at `t = 500`, which
satisfies its hypothesis `|t| ≤ 1000`. -/
theorem spec_c2_calculatePriceFromTick_witness :
    |(500 : ℤ)| ≤ 1000 ∧
      |tickPowForm 500 - tickLogForm 500| ≤ 1e-9 * |tickPowForm 500| :=
  ⟨by decide, spec_c2_calculatePriceFromTick.2.1 500 (by decide)⟩

/-- Cache time-to-live of the WETH price oracle:
`WETH_PRICE_CACHE_TTL = 15 * 60 * 1000` milliseconds (line 62). -/
def WETH_PRICE_CACHE_TTL : ℕ := 15 * 60 * 1000

/-- State of the WETH price oracle: the module-level mutable variables
`cachedWethPrice` (`null` initially, modelled by `none`) and
`wethPriceLastUpdated` (lines 60–61). -/
structure OracleState where
  cachedWethPrice : Option ℝ
  wethPriceLastUpdated : ℕ

/-- Outcome of the authoritative WETH/USDC reference-pool read issued by
`fetchWethPrice`: either the pool's current tick, or a failure (rejected
RPC call), which in the source lands in the `catch` block. -/
inductive PoolReadResult where
  | ok (tick : ℤ)
  | fail

/-- JavaScript truthiness of the `cachedWethPrice` variable: `null` and
`0` are falsy, every other number is truthy. -/
noncomputable def jsTruthyPrice (c : Option ℝ) : Bool :=
  match c with
  | none => false
  | some p => if p = 0 then false else true

/-- JavaScript `cachedWethPrice || 1911` (line 149): the fallback is used
when the cache is `null` (or holds the falsy number `0`). -/
noncomputable def jsOrPrice (c : Option ℝ) (fallback : ℝ) : ℝ :=
  match c with
  | none => fallback
  | some p => if p = 0 then fallback else p

/-- Price computed by `fetchWethPrice` from the reference-pool tick
(lines 121–135): `1.0001 ^ tick` scaled by the constant factor calibrated
so that tick `-200768` maps to price `1911`. -/
noncomputable def wethPriceFromTick (tick : ℤ) : ℝ :=
  let base : ℝ := 1.0001
  let tickPower := base ^ tick
  let referencePower := base ^ (-200768 : ℤ)
  let constantFactor := (1911 : ℝ) / referencePower
  tickPower * constantFactor

/-- Embedding of `fetchWethPrice()` (lines 84–151).  Given the current
state of the module variables, the current time, and the outcome of the
reference-pool read, it returns the price handed to the caller and the
new state.  The cache-hit branch returns before any network read; on a
read failure the `catch` block returns `cachedWethPrice || 1911` and
leaves the state unchanged.  The embedding is a total function: the
source never lets an exception escape to the caller. -/
noncomputable def fetchWethPrice (s : OracleState) (now : ℕ) (r : PoolReadResult) :
    ℝ × OracleState :=
  if jsTruthyPrice s.cachedWethPrice = true ∧
      now - s.wethPriceLastUpdated < WETH_PRICE_CACHE_TTL then
    (s.cachedWethPrice.getD 0, s)
  else
    match r with
    | .ok tick =>
        let price := wethPriceFromTick tick
        (price, ⟨some price, now⟩)
    | .fail => (jsOrPrice s.cachedWethPrice 1911, s)

/-- Initial oracle state: `cachedWethPrice = null`,
`wethPriceLastUpdated = 0`. -/
def oracleInit : OracleState := ⟨none, 0⟩

/-- Oracle states reachable from the initial state: the module variables
are mutated only inside `fetchWethPrice`. -/
inductive OracleReachable : OracleState → Prop where
  | init : OracleReachable oracleInit
  | step (s : OracleState) (now : ℕ) (r : PoolReadResult) :
      OracleReachable s → OracleReachable (fetchWethPrice s now r).2

/-- Every price the success path ever caches is strictly positive. -/
theorem wethPriceFromTick_pos (tick : ℤ) : 0 < wethPriceFromTick tick := by
  unfold wethPriceFromTick
  have h1 : (0 : ℝ) < (1.0001 : ℝ) ^ tick := zpow_pos (by norm_num) _
  have h2 : (0 : ℝ) < (1.0001 : ℝ) ^ (-200768 : ℤ) := zpow_pos (by norm_num) _
  positivity

/-- Cache invariant: in every reachable oracle state the cache is either
still empty or holds a strictly positive price. -/
theorem oracle_cache_invariant (s : OracleState) (h : OracleReachable s) :
    s.cachedWethPrice = none ∨ ∃ p, s.cachedWethPrice = some p ∧ 0 < p := by
  induction h with
  | init => exact Or.inl rfl
  | step s now r _ ih =>
      unfold fetchWethPrice
      split
      · exact ih
      · cases r with
        | ok tick => exact Or.inr ⟨wethPriceFromTick tick, rfl, wethPriceFromTick_pos tick⟩
        | fail => exact ih

/-- C3.  If the reference-pool read fails, `fetchWethPrice` returns the
last cached price when one exists and otherwise the fixed fallback
constant `1911`; on the first-ever call (cold cache) a failure yields
exactly `1911`; and in every reachable state the value returned on
failure is strictly positive (not an error, not zero) while the function
itself is total, so nothing is raised to the caller. -/
theorem spec_c3_oracle_fallback (s : OracleState) (now : ℕ)
    (h : OracleReachable s) :
    (s.cachedWethPrice = none → (fetchWethPrice s now .fail).1 = 1911)
    ∧ (∀ p, s.cachedWethPrice = some p → (fetchWethPrice s now .fail).1 = p)
    ∧ 0 < (fetchWethPrice s now .fail).1 := by
  rcases oracle_cache_invariant s h with hc | ⟨p, hc, hp⟩
  · refine ⟨fun _ => ?_, fun p hp => ?_, ?_⟩
    · unfold fetchWethPrice
      rw [if_neg]
      · simp [jsOrPrice, hc]
      · rw [hc]; simp [jsTruthyPrice]
    · rw [hc] at hp; exact absurd hp (by simp)
    · unfold fetchWethPrice
      rw [if_neg]
      · simp [jsOrPrice, hc]
      · rw [hc]; simp [jsTruthyPrice]
  · have hp0 : p ≠ 0 := ne_of_gt hp
    refine ⟨fun hn => ?_, fun q hq => ?_, ?_⟩
    · rw [hc] at hn; exact absurd hn (by simp)
    · rw [hc] at hq
      have hq' : p = q := by injection hq
      subst hq'
      unfold fetchWethPrice
      split
      · simp [hc]
      · simp [jsOrPrice, hc, hp0]
    · unfold fetchWethPrice
      split
      · simpa [hc] using hp
      · simpa [jsOrPrice, hc, hp0] using hp

/-- Witness for C3: at the initial (cold-cache) state, which is
reachable, a failing read returns the fallback constant `1911`. -/
theorem spec_c3_oracle_fallback_witness :
    OracleReachable oracleInit ∧
      (fetchWethPrice oracleInit 0 .fail).1 = 1911 :=
  ⟨.init, (spec_c3_oracle_fallback oracleInit 0 .init).1 rfl⟩

/-- Skeleton record of a discovered pool, as built by
`findWethPoolsBatched` and filled in by `getPoolsData`: `liquidity`,
`sqrtPriceX96` and `tick` are `none` when the corresponding multicall
item failed and the field was never assigned. -/
structure PoolRec where
  address : String
  token0 : String
  token1 : String
  fee : ℕ
  dex : String
  liquidity : Option String
  sqrtPriceX96 : Option String
  tick : Option ℤ
  deriving DecidableEq, Repr

/-- Loop state of the authoritative-pool scan in `enrichWithPoolData`
(lines 630–656): `highestLiquidity` starts at `BigInt(0)`, `bestPool` at
`null`, `mainPoolAddress` at the empty string, `mainPoolTick` at `0`;
`mainDex` records the `main_dex` assignment that happens each time a new
best pool is found (`none` when it never happened). -/
structure SelState where
  highestLiquidity : ℕ
  bestPool : Option PoolRec
  mainPoolAddress : String
  mainPoolTick : ℤ
  mainDex : Option String
  deriving DecidableEq, Repr

/-- Guard of the scan body (line 638):
`if (!pool || !pool.liquidity || pool.tick === undefined) continue` — a
pool participates only when its liquidity string is present and nonempty
(the string "0" is truthy in JavaScript) and its tick was populated. -/
def poolValid (p : PoolRec) : Bool :=
  match p.liquidity, p.tick with
  | some s, some _ => !(s = "")
  | _, _ => false

/-- One iteration of the authoritative-pool scan (lines 637–656): the
liquidity decimal string is converted with `BigInt` and compared with
strict `>` against the running maximum. -/
def selStep (s : SelState) (p : PoolRec) : SelState :=
  if poolValid p then
    let liquidity := parseDecNat (p.liquidity.getD "")
    if s.highestLiquidity < liquidity then
      ⟨liquidity, some p, p.address, p.tick.getD 0, some p.dex⟩
    else s
  else s

/-- The full authoritative-pool scan over a token's pool list. -/
def selectMainPool (pools : List PoolRec) : SelState :=
  pools.foldl selStep ⟨0, none, "", 0, none⟩

/-- Embedding of `calculateMarketCap(totalSupply, decimals, price)`
(lines 527–557).  For supplies longer than 15 digits the source uses
`BigInt` division; its "fraction part" `(ts % d) / d` is itself a
truncating `BigInt` division and therefore always zero, so that branch
reduces to truncating division by `10 ^ decimals`. -/
noncomputable def calculateMarketCap (totalSupply : String) (decimals : ℕ) (price : ℝ) : ℝ :=
  if totalSupply = "" ∨ price = 0 then 0
  else
    let normalizedSupply : ℝ :=
      if 15 < totalSupply.length then
        ((parseDecNat totalSupply / 10 ^ decimals : ℕ) : ℝ)
      else (parseDecNat totalSupply : ℝ) / (10 : ℝ) ^ decimals
    normalizedSupply * price

/-- Embedding of `calculateLiquidityInUSD` (lines 560–606).  Numeric
strings are read exactly (the source goes through JavaScript `Number`);
a missing `sqrtPriceX96` cannot occur for a selected pool because
`getPoolsData` assigns `tick` and `sqrtPriceX96` from the same `slot0`
result, and no settled claim depends on this value. -/
noncomputable def calculateLiquidityInUSD (liquidity : String) (sqrtPriceX96 : Option String)
    (price : ℝ) (isToken0 : Bool) (token0Decimals token1Decimals : ℕ)
    (wethPriceUsd : ℝ) : ℝ :=
  if liquidity = "" ∨ liquidity = "0" ∨ price = 0 then 0
  else
    let liquidityNum : ℝ := (parseDecNat liquidity : ℝ)
    let sqrtPrice : ℝ := (parseDecNat (sqrtPriceX96.getD "") : ℝ) / 2 ^ 96
    if isToken0 then
      let wethAmount := liquidityNum * sqrtPrice / 10 ^ 18
      let tokenAmount := liquidityNum / sqrtPrice / 10 ^ token0Decimals
      tokenAmount * price + wethAmount * wethPriceUsd
    else
      let tokenAmount := liquidityNum * sqrtPrice / 10 ^ token1Decimals
      let wethAmount := liquidityNum / sqrtPrice / 10 ^ 18
      tokenAmount * price + wethAmount * wethPriceUsd

/-- Per-token view of the `tokenInfoMap` entries flowing through the
pipeline.  Addresses are stored lower-cased, exactly as the map keys of
the source.  `Option` marks the fields that the source only assigns
conditionally (`undefined` before assignment). -/
structure TokenInfo where
  address : String
  name : String
  symbol : String
  decimals : ℕ
  totalSupply : String
  pools : List PoolRec
  pool_count : Option ℕ
  price_usd : Option ℝ
  liquidity_usd : Option ℝ
  market_cap : Option ℝ
  main_dex : Option String
  main_pool_address : Option String
  main_pool_tick : Option ℤ

/-- Embedding of the per-token body of `enrichWithPoolData`
(lines 618–716).  A token with no pools is skipped unchanged
(`continue`, line 622).  Otherwise the authoritative pool is selected by
`selectMainPool`; the price is computed from its tick — directly when
the token is `token0` of the pool, by inverting
`calculatePriceFromTick(tick, token1Decimals, token0Decimals)` when it is
`token1` — and converted to USD with the oracle's WETH price; the market
capitalization is computed only when the price is positive. -/
noncomputable def enrichToken (wethPriceUsd : ℝ) (t : TokenInfo) : TokenInfo :=
  if t.pools = [] then t
  else
    let sel := selectMainPool t.pools
    let t1 : TokenInfo :=
      { t with
        pool_count := some t.pools.length
        main_dex := match sel.mainDex with
          | some d => some d
          | none => t.main_dex
        main_pool_address := some sel.mainPoolAddress
        main_pool_tick := some sel.mainPoolTick }
    match sel.bestPool with
    | none => { t1 with price_usd := some 0, liquidity_usd := some 0 }
    | some best =>
        let isToken0 : Bool := best.token0 = t.address
        let token0Decimals : ℕ := if isToken0 then t.decimals else 18
        let token1Decimals : ℕ := if isToken0 then 18 else t.decimals
        let tickNumber : ℤ := best.tick.getD 0
        let price : ℝ :=
          if isToken0 then
            calculatePriceFromTick tickNumber token0Decimals token1Decimals * wethPriceUsd
          else
            1 / calculatePriceFromTick tickNumber token1Decimals token0Decimals * wethPriceUsd
        let liquidity_usd := calculateLiquidityInUSD (best.liquidity.getD "")
          best.sqrtPriceX96 price isToken0 token0Decimals token1Decimals wethPriceUsd
        let t2 := { t1 with price_usd := some price, liquidity_usd := some liquidity_usd }
        if 0 < price then
          { t2 with market_cap := some (calculateMarketCap t.totalSupply t.decimals price) }
        else t2

/-- The scan step either leaves the state unchanged or replaces it
entirely with the record of the new best pool. -/
theorem selStep_cases (s : SelState) (p : PoolRec) :
    selStep s p = s ∨
      (poolValid p = true ∧
        s.highestLiquidity < parseDecNat (p.liquidity.getD "") ∧
        selStep s p = ⟨parseDecNat (p.liquidity.getD ""), some p, p.address,
          p.tick.getD 0, some p.dex⟩) := by
  unfold selStep
  split
  · dsimp only
    split
    · right; exact ⟨by assumption, by assumption, rfl⟩
    · left; rfl
  · left; rfl

/-- The running maximum never decreases in one step. -/
theorem selStep_highest_le (s : SelState) (p : PoolRec) :
    s.highestLiquidity ≤ (selStep s p).highestLiquidity := by
  rcases selStep_cases s p with h | ⟨_, hlt, h⟩
  · rw [h]
  · rw [h]; exact le_of_lt hlt

/-- After a step over a valid pool, the running maximum dominates that
pool's liquidity. -/
theorem selStep_ge_valid (s : SelState) (p : PoolRec) (h : poolValid p = true) :
    parseDecNat (p.liquidity.getD "") ≤ (selStep s p).highestLiquidity := by
  unfold selStep
  rw [if_pos h]
  dsimp only
  split
  · exact le_refl _
  · omega

/-- The running maximum never decreases along the scan. -/
theorem foldl_selStep_highest_le (pools : List PoolRec) (s : SelState) :
    s.highestLiquidity ≤ (pools.foldl selStep s).highestLiquidity := by
  induction pools generalizing s with
  | nil => exact le_refl _
  | cons p ps ih => exact le_trans (selStep_highest_le s p) (ih (selStep s p))

/-- The final running maximum dominates the liquidity of every valid
pool of the list. -/
theorem foldl_selStep_ge (pools : List PoolRec) (s : SelState) (q : PoolRec)
    (hq : q ∈ pools) (hv : poolValid q = true) :
    parseDecNat (q.liquidity.getD "") ≤ (pools.foldl selStep s).highestLiquidity := by
  induction pools generalizing s with
  | nil => cases hq
  | cons p ps ih =>
      rcases List.mem_cons.mp hq with h | h
      · subst h
        exact le_trans (selStep_ge_valid s q hv) (foldl_selStep_highest_le ps _)
      · exact ih (selStep s p) h

/-- The scan ends either in its start state or in the record of some
valid pool of the list whose liquidity is the final maximum. -/
theorem foldl_selStep_best (pools : List PoolRec) (s : SelState) :
    pools.foldl selStep s = s ∨
      ∃ b ∈ pools, poolValid b = true ∧
        pools.foldl selStep s = ⟨parseDecNat (b.liquidity.getD ""), some b,
          b.address, b.tick.getD 0, some b.dex⟩ := by
  induction pools generalizing s with
  | nil => exact Or.inl rfl
  | cons p ps ih =>
      rcases selStep_cases s p with h | ⟨hv, _, h⟩
      · rcases ih (selStep s p) with h2 | ⟨b, hb, hbv, h2⟩
        · left; rw [List.foldl_cons, h2, h]
        · right; exact ⟨b, List.mem_cons_of_mem p hb, hbv, by rw [List.foldl_cons, h2]⟩
      · rcases ih (selStep s p) with h2 | ⟨b, hb, hbv, h2⟩
        · right
          exact ⟨p, List.mem_cons_self p ps, hv, by rw [List.foldl_cons, h2, h]⟩
        · right; exact ⟨b, List.mem_cons_of_mem p hb, hbv, by rw [List.foldl_cons, h2]⟩

/-- When the scan selected pool `b`, the enriched token records `b`'s
DEX label, address and tick. -/
theorem enrichToken_recorded_fields (t : TokenInfo) (w : ℝ) (b : PoolRec) (n : ℕ)
    (hne : t.pools ≠ [])
    (hsel : selectMainPool t.pools =
      ⟨n, some b, b.address, b.tick.getD 0, some b.dex⟩) :
    (enrichToken w t).main_dex = some b.dex ∧
    (enrichToken w t).main_pool_address = some b.address ∧
    (enrichToken w t).main_pool_tick = some (b.tick.getD 0) := by
  unfold enrichToken
  rw [if_neg hne, hsel]
  dsimp only
  refine ⟨?_, ?_, ?_⟩
  · simp only [apply_ite TokenInfo.main_dex, ite_self]
  · simp only [apply_ite TokenInfo.main_pool_address, ite_self]
  · simp only [apply_ite TokenInfo.main_pool_tick, ite_self]

/-- C4.  For a token having at least one pool that carries liquidity and
tick data, the scan selects a pool whose liquidity decimal string,
compared as an arbitrary-precision natural number, dominates the
liquidity of every other valid pool, and the enriched token records that
pool's DEX label, address and tick. -/
theorem spec_c4_main_pool_selection (t : TokenInfo) (w : ℝ)
    (h : ∃ p ∈ t.pools, poolValid p = true ∧ 0 < parseDecNat (p.liquidity.getD "")) :
    ∃ b ∈ t.pools, poolValid b = true ∧
      (selectMainPool t.pools).bestPool = some b ∧
      (∀ q ∈ t.pools, poolValid q = true →
        parseDecNat (q.liquidity.getD "") ≤ parseDecNat (b.liquidity.getD "")) ∧
      (enrichToken w t).main_dex = some b.dex ∧
      (enrichToken w t).main_pool_address = some b.address ∧
      (enrichToken w t).main_pool_tick = some (b.tick.getD 0) := by
  obtain ⟨p, hp, hpv, hpl⟩ := h
  have hne : t.pools ≠ [] := by
    rintro hnil; rw [hnil] at hp; cases hp
  rcases foldl_selStep_best t.pools ⟨0, none, "", 0, none⟩ with hid | ⟨b, hb, hbv, hsel⟩
  · exfalso
    have hge := foldl_selStep_ge t.pools ⟨0, none, "", 0, none⟩ p hp hpv
    rw [hid] at hge
    simp only at hge
    omega
  · have hsel' : selectMainPool t.pools =
        ⟨parseDecNat (b.liquidity.getD ""), some b, b.address, b.tick.getD 0, some b.dex⟩ := hsel
    obtain ⟨hd, ha, ht⟩ := enrichToken_recorded_fields t w b _ hne hsel'
    refine ⟨b, hb, hbv, ?_, ?_, hd, ha, ht⟩
    · rw [hsel']
    · intro q hq hqv
      have hq2 := foldl_selStep_ge t.pools ⟨0, none, "", 0, none⟩ q hq hqv
      rw [hsel] at hq2
      exact hq2

/-- Example pool with liquidity decimal string "100". -/
def samplePoolSmall : PoolRec :=
  ⟨"0xpool1", "0xtoken", "0xweth", 3000, "Uniswap V3", some "100", some "79228", some 10⟩

/-- Example pool with liquidity decimal string "500000". -/
def samplePoolBig : PoolRec :=
  ⟨"0xpool2", "0xweth", "0xtoken", 500, "Uniswap V3", some "500000", some "79228", some 20⟩

/-- Example token owning the two example pools. -/
def sampleToken : TokenInfo :=
  ⟨"0xtoken", "Tok", "TOK", 18, "1000000", [samplePoolSmall, samplePoolBig],
    none, none, none, none, none, none, none⟩

/-- Witness for C4 at the spec's example: between liquidity "100" and
"500000" the second pool is selected. -/
theorem spec_c4_main_pool_selection_witness :
    (∃ b ∈ sampleToken.pools, poolValid b = true ∧
      (selectMainPool sampleToken.pools).bestPool = some b ∧
      (∀ q ∈ sampleToken.pools, poolValid q = true →
        parseDecNat (q.liquidity.getD "") ≤ parseDecNat (b.liquidity.getD "")) ∧
      (enrichToken 1911 sampleToken).main_dex = some b.dex ∧
      (enrichToken 1911 sampleToken).main_pool_address = some b.address ∧
      (enrichToken 1911 sampleToken).main_pool_tick = some (b.tick.getD 0))
    ∧ (selectMainPool sampleToken.pools).bestPool = some samplePoolBig :=
  ⟨spec_c4_main_pool_selection sampleToken 1911
      ⟨samplePoolBig, by decide, by decide, by decide⟩,
    by decide⟩

/-- Price computed by `enrichWithPoolData` when the token is `token1` of
its authoritative pool (lines 683–689): the source inverts
`calculatePriceFromTick(tick, token1Decimals, token0Decimals)`, i.e. the
call with the decimals arguments swapped, where `token0Decimals = 18`
(WETH) and `token1Decimals` is the token's own decimals. -/
theorem enrichToken_price_token1 (t : TokenInfo) (w : ℝ) (b : PoolRec) (n : ℕ) (tk : ℤ)
    (hne : t.pools ≠ [])
    (hsel : selectMainPool t.pools =
      ⟨n, some b, b.address, b.tick.getD 0, some b.dex⟩)
    (h1 : b.token0 ≠ t.address)
    (htk : b.tick = some tk) :
    (enrichToken w t).price_usd =
      some (1 / calculatePriceFromTick tk t.decimals 18 * w) := by
  unfold enrichToken
  rw [if_neg hne, hsel]
  dsimp only
  rw [htk]
  simp only [decide_eq_false h1, Bool.false_eq_true, if_false, Option.getD_some,
    apply_ite TokenInfo.price_usd, ite_self]

/-- C8 counterexample.  Concrete token that is `token1` of its only pool:
six decimals, pool tick `0`, WETH price 1.  The computed price equals
`1 / calculatePriceFromTick(0, 6, 18) = 10^(-12)`, which differs from the
claimed `1 / (1.0001^0 * 10^(d1 - d0)) = 1 / 10^(6-18) = 10^12`
(`d0 = 18` is the pool's token0/WETH decimals, `d1 = 6` the token's). -/
def sampleToken1Pool : PoolRec :=
  ⟨"0xpoolB", "0xweth", "0xtok1", 3000, "Uniswap V3", some "1000", some "79228", some 0⟩

/-- Example token sitting in the `token1` slot of `sampleToken1Pool`. -/
def sampleToken1 : TokenInfo :=
  ⟨"0xtok1", "T1", "T1", 6, "1000000", [sampleToken1Pool],
    none, none, none, none, none, none, none⟩

/-- C8 fails as stated: at tick 0 with token decimals 6 (token as
`token1`, WETH decimals 18, WETH price 1) the code computes price
`10^(-12)`, while the claimed formula `1 / (1.0001^t * 10^(d1 - d0))`
gives `10^12`. -/
theorem spec_c8_counterexample :
    (enrichToken 1 sampleToken1).price_usd =
        some (1 / calculatePriceFromTick 0 6 18 * 1)
    ∧ (1 / calculatePriceFromTick 0 6 18 * 1 : ℝ) ≠
        1 / ((1.0001 : ℝ) ^ (0 : ℤ) * (10 : ℝ) ^ ((6 : ℤ) - (18 : ℤ))) := by
  constructor
  · exact enrichToken_price_token1 sampleToken1 1 sampleToken1Pool 1000 0
      (by decide) (by decide) (by decide) rfl
  · rw [calculatePriceFromTick_eq]
    norm_num

/-- C8 amended.  When the token being priced is `token1` of its
authoritative pool, its price in the reference asset is the inverse of
`calculatePriceFromTick` applied with the decimals arguments swapped:
`1 / (1.0001^tick * 10^(d0 - d1))` with `d0 = 18` the pool's token0
(WETH) decimals and `d1` the token's decimals, then scaled by the WETH
price. -/
theorem spec_c8_token1_price_amended (t : TokenInfo) (w : ℝ) (b : PoolRec) (n : ℕ) (tk : ℤ)
    (hne : t.pools ≠ [])
    (hsel : selectMainPool t.pools =
      ⟨n, some b, b.address, b.tick.getD 0, some b.dex⟩)
    (h1 : b.token0 ≠ t.address)
    (htk : b.tick = some tk) :
    (enrichToken w t).price_usd =
      some (1 / ((1.0001 : ℝ) ^ tk * (10 : ℝ) ^ ((18 : ℤ) - (t.decimals : ℤ))) * w) := by
  rw [enrichToken_price_token1 t w b n tk hne hsel h1 htk, calculatePriceFromTick_eq]
  norm_num

/-- Witness for the amended C8 at the concrete example token. -/
theorem spec_c8_token1_price_amended_witness :
    sampleToken1.pools ≠ [] ∧
      (enrichToken 1 sampleToken1).price_usd =
        some (1 / ((1.0001 : ℝ) ^ (0 : ℤ) * (10 : ℝ) ^ ((18 : ℤ) - (6 : ℤ))) * 1) :=
  ⟨by decide,
    spec_c8_token1_price_amended sampleToken1 1 sampleToken1Pool 1000 0
      (by decide) (by decide) (by decide) rfl⟩

/-- JavaScript `x || d` on an optionally-assigned natural number field
(`undefined` and `0` are falsy). -/
def jsOrNat (x : Option ℕ) (d : ℕ) : ℕ :=
  match x with
  | none => d
  | some 0 => d
  | some (n + 1) => n + 1

/-- JavaScript `x || d` on an optionally-assigned integer field. -/
def jsOrInt (x : Option ℤ) (d : ℤ) : ℤ :=
  match x with
  | none => d
  | some z => if z = 0 then d else z

/-- JavaScript `x || d` on an optionally-assigned string field (the
empty string is falsy). -/
def jsOrStr (x : Option String) (d : String) : String :=
  match x with
  | none => d
  | some s => if s = "" then d else s

/-- JavaScript `x || d` on a (non-optional) string field. -/
def jsOrStr1 (s : String) (d : String) : String :=
  if s = "" then d else s

/-- JavaScript `x || d` on a (non-optional) number field. -/
def jsOrNat1 (n : ℕ) (d : ℕ) : ℕ :=
  if n = 0 then d else n

/-- Persisted document of the `GeckoData` mongoose collection
(`src/Backend2/models/GeckoData.js`).  The `lastUpdated` and timestamp
fields are omitted (wall-clock values outside any claim). -/
structure GeckoDoc where
  contractAddress : String
  name : String
  symbol : String
  decimals : ℕ
  totalSupply : String
  price_usd : ℝ
  volume_usd : ℝ
  liquidity_usd : ℝ
  market_cap : ℝ
  pool_count : ℕ
  main_dex : String
  main_pool_address : String
  main_pool_tick : ℤ

/-- Schema defaults of `GeckoData`, applied by mongoose when an upsert
inserts a new document: `decimals` defaults to 18, every monetary and
count field to 0, every label to the empty string. -/
def geckoSchemaDefault (addr : String) : GeckoDoc :=
  ⟨addr, "", "", 18, "", 0, 0, 0, 0, 0, "", "", 0⟩

/-- The `$set` payload built for one token by `processAndStoreTokensData`
(lines 744–757).  Note that `liquidity_usd` and `volume_usd` are NOT part
of the payload: the source builds `tokenDoc` without them. -/
structure TokenSetDoc where
  contractAddress : String
  name : String
  symbol : String
  decimals : ℕ
  totalSupply : String
  pool_count : ℕ
  price_usd : ℝ
  market_cap : ℝ
  main_dex : String
  main_pool_address : String
  main_pool_tick : ℤ

/-- Embedding of the `tokenDoc` construction of
`processAndStoreTokensData` (lines 744–757), with each JavaScript
`|| default` mirrored. -/
noncomputable def buildTokenDoc (t : TokenInfo) : TokenSetDoc :=
  { contractAddress := t.address
    name := jsOrStr1 t.name ""
    symbol := jsOrStr1 t.symbol ""
    decimals := jsOrNat1 t.decimals 18
    totalSupply := jsOrStr1 t.totalSupply "0"
    pool_count := jsOrNat t.pool_count 0
    price_usd := jsOrPrice t.price_usd 0
    market_cap := jsOrPrice t.market_cap 0
    main_dex := jsOrStr t.main_dex ""
    main_pool_address := jsOrStr t.main_pool_address ""
    main_pool_tick := jsOrInt t.main_pool_tick 0 }

/-- Application of a `$set` payload to an existing document: only the
listed fields are overwritten; `volume_usd` and `liquidity_usd` are left
untouched. -/
def applySet (d : GeckoDoc) (s : TokenSetDoc) : GeckoDoc :=
  { d with
    contractAddress := s.contractAddress
    name := s.name
    symbol := s.symbol
    decimals := s.decimals
    totalSupply := s.totalSupply
    pool_count := s.pool_count
    price_usd := s.price_usd
    market_cap := s.market_cap
    main_dex := s.main_dex
    main_pool_address := s.main_pool_address
    main_pool_tick := s.main_pool_tick }

/-- MongoDB `updateOne` with `upsert: true` keyed on `contractAddress`:
an existing document receives the `$set` payload; otherwise a new
document is created from the schema defaults and the payload. -/
def upsertGecko (store : List (String × GeckoDoc)) (s : TokenSetDoc) :
    List (String × GeckoDoc) :=
  if store.any (fun kv => kv.1 = s.contractAddress) then
    store.map (fun kv =>
      if kv.1 = s.contractAddress then (kv.1, applySet kv.2 s) else kv)
  else
    store ++ [(s.contractAddress, applySet (geckoSchemaDefault s.contractAddress) s)]

/-- Embedding of `processAndStoreTokensData` (lines 727–789): every map
entry yields one bulk upsert, executed in order. -/
noncomputable def processAndStoreTokensData (store : List (String × GeckoDoc))
    (tokens : List TokenInfo) : List (String × GeckoDoc) :=
  tokens.foldl (fun st t => upsertGecko st (buildTokenDoc t)) store

/-- C5.  A token with zero discovered pools — `pools = []`, and
`pool_count` set to 0 by `updateTokenData` before enrichment — passes
through `enrichWithPoolData` unchanged and is still persisted: the store
gains a document for its address whose `pool_count`, `price_usd`,
`liquidity_usd` and `market_cap` are all zero, so the token is
distinguishable from one that was never processed. -/
theorem spec_c5_zero_pool_token_persisted (store : List (String × GeckoDoc))
    (t : TokenInfo) (w : ℝ)
    (hpools : t.pools = [])
    (hpc : t.pool_count = some 0 ∨ t.pool_count = none)
    (hprice : t.price_usd = none)
    (hmc : t.market_cap = none)
    (hfresh : store.any (fun kv => kv.1 = t.address) = false) :
    enrichToken w t = t ∧
      processAndStoreTokensData store [enrichToken w t] =
        store ++ [(t.address, applySet (geckoSchemaDefault t.address) (buildTokenDoc t))] ∧
      ∃ d, processAndStoreTokensData store [enrichToken w t] = store ++ [(t.address, d)] ∧
        d.contractAddress = t.address ∧ d.pool_count = 0 ∧ d.price_usd = 0 ∧
        d.liquidity_usd = 0 ∧ d.market_cap = 0 := by
  have henrich : enrichToken w t = t := by
    unfold enrichToken
    rw [if_pos hpools]
  have hbuild_addr : (buildTokenDoc t).contractAddress = t.address := rfl
  have hstep : processAndStoreTokensData store [enrichToken w t] =
      upsertGecko store (buildTokenDoc t) := by
    rw [henrich]; rfl
  have hupsert : upsertGecko store (buildTokenDoc t) =
      store ++ [(t.address, applySet (geckoSchemaDefault t.address) (buildTokenDoc t))] := by
    unfold upsertGecko
    rw [hbuild_addr, if_neg (by rw [hfresh]; exact Bool.false_ne_true)]
  refine ⟨henrich, by rw [hstep, hupsert], ?_⟩
  refine ⟨applySet (geckoSchemaDefault t.address) (buildTokenDoc t),
    by rw [hstep, hupsert], rfl, ?_, ?_, rfl, ?_⟩
  · show jsOrNat t.pool_count 0 = 0
    rcases hpc with h | h <;> rw [h] <;> rfl
  · show jsOrPrice t.price_usd 0 = 0
    rw [hprice]; rfl
  · show jsOrPrice t.market_cap 0 = 0
    rw [hmc]; rfl

/-- Example token with zero discovered pools, as produced by
`getTokensBasicInfo` plus the `pool_count = 0` assignment of
`updateTokenData`. -/
def sampleZeroPoolToken : TokenInfo :=
  ⟨"0xzero", "Z", "Z", 18, "1000", [], some 0, none, none, none, none, none, none⟩

/-- Witness for C5: the zero-pool example token upserted into an empty
store. -/
theorem spec_c5_zero_pool_token_persisted_witness :
    enrichToken 1911 sampleZeroPoolToken = sampleZeroPoolToken ∧
      processAndStoreTokensData [] [enrichToken 1911 sampleZeroPoolToken] =
        [] ++ [("0xzero", applySet (geckoSchemaDefault "0xzero")
          (buildTokenDoc sampleZeroPoolToken))] ∧
      ∃ d, processAndStoreTokensData [] [enrichToken 1911 sampleZeroPoolToken] =
          [] ++ [("0xzero", d)] ∧
        d.contractAddress = "0xzero" ∧ d.pool_count = 0 ∧ d.price_usd = 0 ∧
        d.liquidity_usd = 0 ∧ d.market_cap = 0 :=
  spec_c5_zero_pool_token_persisted [] sampleZeroPoolToken 1911 rfl (Or.inl rfl) rfl rfl rfl

/-- The four ERC20 read functions that `getTokensBasicInfo` encodes per
token, in the order the calls are pushed (lines 181–209). -/
inductive ERC20Fn where
  | name
  | symbol
  | decimals
  | totalSupply
  deriving DecidableEq, Repr

/-- One entry of the `aggregate3` call array: target contract, the
`allowFailure` flag and the encoded function selector. -/
structure Call3 where
  target : String
  allowFailure : Bool
  callFn : ERC20Fn
  deriving DecidableEq, Repr

/-- Raw return data of one multicall item, as seen by the decoder:
either an ABI string payload, an ABI unsigned-integer payload, or bytes
that the matching decoder cannot parse (a decode attempt throws). -/
inductive RetData where
  | rstr (s : String)
  | rnat (n : ℕ)
  | rbytes
  deriving DecidableEq, Repr

/-- One item of the `aggregate3` response: the per-item success flag and
the raw return data. -/
structure MCResult where
  success : Bool
  returnData : RetData
  deriving DecidableEq, Repr

/-- Decoding a string-returning function result
(`decodeFunctionResult(…)[0]`); `none` models a thrown decode error. -/
def decodeString : RetData → Option String
  | .rstr s => some s
  | _ => none

/-- Decoding an unsigned-integer-returning function result; `none`
models a thrown decode error. -/
def decodeUint : RetData → Option ℕ
  | .rnat n => some n
  | _ => none

/-- The call array that `getTokensBasicInfo` encodes: four calls per
token address, in address order, each with `allowFailure: true`
(lines 181–209). -/
def basicInfoCalls (addrs : List String) : List Call3 :=
  addrs.flatMap (fun a =>
    [⟨a, true, .name⟩, ⟨a, true, .symbol⟩, ⟨a, true, .decimals⟩, ⟨a, true, .totalSupply⟩])

/-- The decoded per-token fields, with the source's defaults
`name = ""`, `symbol = ""`, `decimals = 18`, `totalSupply = "0"`
(lines 222–225). -/
structure TokenFields where
  name : String
  symbol : String
  decimals : ℕ
  totalSupply : String
  deriving DecidableEq, Repr

/-- One guarded field decode inside the `try` block: a result item with
`success = false` is skipped (the default value `cur` is kept), a
successful item is decoded, and a decode failure throws
(`Except.error`). -/
def fieldStep {α : Type} (cur : α) (r : MCResult) (dec : RetData → Option α) :
    Except Unit α :=
  if r.success then
    match dec r.returnData with
    | some v => .ok v
    | none => .error ()
  else .ok cur

/-- Decoding of the four result items of one token (lines 218–257): the
fields are assigned sequentially inside one `try/catch`, so a decode
error freezes the fields assigned so far and leaves the rest at their
defaults; items with `success = false` never throw and keep defaults. -/
def decodeTokenQuad (r0 r1 r2 r3 : MCResult) : TokenFields :=
  match fieldStep "" r0 decodeString with
  | .error _ => ⟨"", "", 18, "0"⟩
  | .ok nm =>
    match fieldStep "" r1 decodeString with
    | .error _ => ⟨nm, "", 18, "0"⟩
    | .ok sy =>
      match fieldStep 18 r2 decodeUint with
      | .error _ => ⟨nm, sy, 18, "0"⟩
      | .ok dc =>
        match fieldStep 0 r3 decodeUint with
        | .error _ => ⟨nm, sy, dc, "0"⟩
        | .ok ts => ⟨nm, sy, dc, toString ts⟩

/-- Result-processing loop of `getTokensBasicInfo` (lines 215–257): the
results are consumed four at a time, producing one map entry per input
token keyed by its lower-cased address, in input order. -/
def processBasicResults : List String → List MCResult → List (String × TokenFields)
  | a :: as, r0 :: r1 :: r2 :: r3 :: rs =>
      (a.toLower, decodeTokenQuad r0 r1 r2 r3) :: processBasicResults as rs
  | _, _ => []

/-- Helper: a response of length `4 * (n + 1)` splits into a quad and a
response of length `4 * n`. -/
theorem response_split (rs : List MCResult) (n : ℕ) (h : rs.length = 4 * (n + 1)) :
    ∃ r0 r1 r2 r3 rs2, rs = r0 :: r1 :: r2 :: r3 :: rs2 ∧ rs2.length = 4 * n := by
  match rs with
  | r0 :: r1 :: r2 :: r3 :: rs2 =>
      refine ⟨r0, r1, r2, r3, rs2, rfl, ?_⟩
      simp only [List.length_cons] at h
      omega
  | [] => simp at h
  | [r0] => simp at h; omega
  | [r0, r1] => simp at h; omega
  | [r0, r1, r2] => simp at h; omega

/-- The decode loop yields exactly one entry per input token, keyed by
the lower-cased address, in input order. -/
theorem processBasicResults_keys (addrs : List String) (results : List MCResult)
    (h : results.length = 4 * addrs.length) :
    (processBasicResults addrs results).map Prod.fst = addrs.map String.toLower := by
  induction addrs generalizing results with
  | nil => rfl
  | cons a as ih =>
      obtain ⟨r0, r1, r2, r3, rs2, rfl, h2⟩ :=
        response_split results as.length (by simpa using h)
      simp only [processBasicResults, List.map_cons]
      exact congrArg (List.cons a.toLower) (ih rs2 h2)

/-- C7.  The multicall encoder emits four calls per token in input
order; the decoder produces one entry per input token in the same order,
each decoded from that token's own quad of result items; a quad whose
items all carry `success = false` yields the default fields
`("", "", 18, "0")` without aborting the batch; and a failed item leaves
sibling fields of the same token to decode normally (the symbol decoded
from item 1 does not depend on the success of item 0). -/
theorem spec_c7_multicall_decode :
    (∀ addrs : List String, (basicInfoCalls addrs).length = 4 * addrs.length)
    ∧ (∀ addrs : List String, ∀ results : List MCResult,
        results.length = 4 * addrs.length →
          (processBasicResults addrs results).map Prod.fst = addrs.map String.toLower
          ∧ (processBasicResults addrs results).length = addrs.length)
    ∧ (∀ (a : String) (as : List String) (r0 r1 r2 r3 : MCResult) (rs : List MCResult),
        processBasicResults (a :: as) (r0 :: r1 :: r2 :: r3 :: rs) =
          (a.toLower, decodeTokenQuad r0 r1 r2 r3) :: processBasicResults as rs)
    ∧ (∀ d0 d1 d2 d3 : RetData,
        decodeTokenQuad ⟨false, d0⟩ ⟨false, d1⟩ ⟨false, d2⟩ ⟨false, d3⟩ = ⟨"", "", 18, "0"⟩)
    ∧ (∀ (d0 : RetData) (r1 r2 r3 : MCResult) (s : String),
        (decodeTokenQuad ⟨false, d0⟩ r1 r2 r3).symbol =
          (decodeTokenQuad ⟨true, .rstr s⟩ r1 r2 r3).symbol) := by
  refine ⟨?_, ?_, ?_, ?_, ?_⟩
  · intro addrs
    induction addrs with
    | nil => rfl
    | cons a as ih => simp [basicInfoCalls] at ih ⊢; omega
  · intro addrs results h
    refine ⟨processBasicResults_keys addrs results h, ?_⟩
    have := processBasicResults_keys addrs results h
    have h1 : ((processBasicResults addrs results).map Prod.fst).length =
        (addrs.map String.toLower).length := by rw [this]
    simpa using h1
  · intro a as r0 r1 r2 r3 rs
    rfl
  · intro d0 d1 d2 d3
    rfl
  · intro d0 r1 r2 r3 s
    simp only [decodeTokenQuad, fieldStep]
    rcases r1 with ⟨s1, d1⟩
    rcases s1 <;> rcases d1 <;> rcases r2 with ⟨s2, d2⟩ <;> rcases s2 <;> rcases d2 <;>
      rcases r3 with ⟨s3, d3⟩ <;> rcases s3 <;> rcases d3 <;> rfl

/-- Witness for C7: two tokens, the first with all four items failed,
the second fully successful; the decode keeps both, in order, with
defaults for the first. -/
theorem spec_c7_multicall_decode_witness :
    (processBasicResults ["0xAA", "0xBB"]
        [⟨false, .rbytes⟩, ⟨false, .rbytes⟩, ⟨false, .rbytes⟩, ⟨false, .rbytes⟩,
         ⟨true, .rstr "Beta"⟩, ⟨true, .rstr "B"⟩, ⟨true, .rnat 8⟩, ⟨true, .rnat 42⟩]).map
        Prod.fst = ["0xAA", "0xBB"].map String.toLower ∧
      (processBasicResults ["0xAA", "0xBB"]
          [⟨false, .rbytes⟩, ⟨false, .rbytes⟩, ⟨false, .rbytes⟩, ⟨false, .rbytes⟩,
           ⟨true, .rstr "Beta"⟩, ⟨true, .rstr "B"⟩, ⟨true, .rnat 8⟩, ⟨true, .rnat 42⟩]).length
        = 2 :=
  spec_c7_multicall_decode.2.1 ["0xAA", "0xBB"]
    [⟨false, .rbytes⟩, ⟨false, .rbytes⟩, ⟨false, .rbytes⟩, ⟨false, .rbytes⟩,
     ⟨true, .rstr "Beta"⟩, ⟨true, .rstr "B"⟩, ⟨true, .rnat 8⟩, ⟨true, .rnat 42⟩]
    (by rfl)

/-- Scheduler state of `initializeDataFetching` (lines 791–831): the
module-level `isUpdating` flag (line 8), the number of currently active
`updateTokenData` runs started by the startup `setTimeout` (line 808,
which neither checks nor sets the flag), the number of currently active
runs started by the cron callback (lines 815–828), and whether the
one-shot startup timer has already fired. -/
structure GuardState where
  isUpdating : Bool
  startupRuns : ℕ
  cronRuns : ℕ
  startupFired : Bool
  deriving DecidableEq, Repr

/-- Events of the scheduler: the startup timer firing, a cron tick
firing, and a run of either kind finishing.  `updateTokenData` suspends
at its awaits, so a cron tick can be delivered while a startup run is
still active. -/
inductive GuardEvent where
  | startupFire
  | startupFinish
  | cronFire
  | cronFinish
  deriving DecidableEq, Repr

/-- Transition function.  The startup trigger starts a run without
touching `isUpdating`; a cron tick is skipped (not queued) when
`isUpdating` is set, and otherwise sets the flag and starts a run whose
`finally` clears the flag. -/
def guardStep (s : GuardState) (e : GuardEvent) : GuardState :=
  match e with
  | .startupFire =>
      if s.startupFired then s
      else { s with startupRuns := s.startupRuns + 1, startupFired := true }
  | .startupFinish =>
      if 0 < s.startupRuns then { s with startupRuns := s.startupRuns - 1 } else s
  | .cronFire =>
      if s.isUpdating then s
      else { s with isUpdating := true, cronRuns := s.cronRuns + 1 }
  | .cronFinish =>
      if 0 < s.cronRuns then
        { s with cronRuns := s.cronRuns - 1, isUpdating := false }
      else s

/-- Initial scheduler state. -/
def guardInit : GuardState := ⟨false, 0, 0, false⟩

/-- Number of `updateTokenData` invocations currently active. -/
def activeRuns (s : GuardState) : ℕ := s.startupRuns + s.cronRuns

/-- C9 counterexample.  The startup trigger does not set `isUpdating`,
so the first cron tick delivered while the startup run is still active
observes a clear flag and starts a second, concurrent `updateTokenData`
run: after the trace `[startupFire, cronFire]` two runs are active at
once, refuting the claim for the initial startup trigger. -/
theorem spec_c9_counterexample :
    activeRuns ([GuardEvent.startupFire, GuardEvent.cronFire].foldl guardStep guardInit) = 2
    ∧ (guardStep guardInit GuardEvent.startupFire).isUpdating = false := by
  exact ⟨rfl, rfl⟩

/-- Amended-claim invariant: at most one cron-triggered run is active,
and whenever none is active the flag is clear. -/
def cronGuardInv (s : GuardState) : Prop :=
  s.cronRuns ≤ 1 ∧ (s.isUpdating = false → s.cronRuns = 0)

/-- The invariant is preserved by every event. -/
theorem guardStep_preserves_inv (s : GuardState) (e : GuardEvent)
    (h : cronGuardInv s) : cronGuardInv (guardStep s e) := by
  obtain ⟨h1, h2⟩ := h
  cases e with
  | startupFire =>
      simp only [guardStep]
      split
      · exact ⟨h1, h2⟩
      · exact ⟨h1, h2⟩
  | startupFinish =>
      simp only [guardStep]
      split
      · exact ⟨h1, h2⟩
      · exact ⟨h1, h2⟩
  | cronFire =>
      simp only [guardStep]
      split
      · exact ⟨h1, h2⟩
      · rename_i hu
        have hb : s.isUpdating = false := by
          revert hu
          cases s.isUpdating <;> intro hu
          · rfl
          · exact absurd rfl hu
        have hz : s.cronRuns = 0 := h2 hb
        refine ⟨?_, fun hf => ?_⟩
        · show s.cronRuns + 1 ≤ 1
          omega
        · simp at hf
  | cronFinish =>
      simp only [guardStep]
      split
      · rename_i hpos
        refine ⟨?_, fun _ => ?_⟩
        · show s.cronRuns - 1 ≤ 1
          omega
        · show s.cronRuns - 1 = 0
          omega
      · exact ⟨h1, h2⟩

/-- C9 amended.  Cron-triggered invocations of the pipeline never
overlap one another: along every event trace from the initial state at
most one cron-started run is active, and a cron tick that observes the
flag set is skipped outright (the state is unchanged — not queued).  The
startup trigger is exempt: it neither checks nor sets the flag, and can
overlap a cron run (see the counterexample). -/
theorem spec_c9_cron_no_overlap_amended :
    (∀ trace : List GuardEvent, (trace.foldl guardStep guardInit).cronRuns ≤ 1)
    ∧ (∀ s : GuardState, s.isUpdating = true → guardStep s .cronFire = s) := by
  constructor
  · intro trace
    have h : cronGuardInv (trace.foldl guardStep guardInit) := by
      induction trace using List.reverseRecOn with
      | nil => exact ⟨by decide, fun _ => rfl⟩
      | append_singleton es e ih =>
          rw [List.foldl_append, List.foldl_cons, List.foldl_nil]
          exact guardStep_preserves_inv _ e ih
    exact h.1
  · intro s hu
    unfold guardStep
    rw [if_pos hu]

/-- Witness for the amended C9: the skip clause applied to a concrete
state with the flag set. -/
theorem spec_c9_cron_no_overlap_amended_witness :
    guardStep ⟨true, 0, 1, true⟩ .cronFire = ⟨true, 0, 1, true⟩ :=
  spec_c9_cron_no_overlap_amended.2 ⟨true, 0, 1, true⟩ rfl

end TokenService

namespace TokenDataService

/-- Attributes of one token object of a GeckoTerminal multi-token
response (`response.data.data`), as read by `fetchPriceData`
(lines 163–179 of `tokenDataService.js`). -/
structure PriceEntry where
  id : String
  price_usd : ℚ
  fdv_usd : ℚ
  volume_usd_h24 : ℚ
  total_reserve_in_usd : ℚ
  total_supply : ℚ
  name : String
  symbol : String
  deriving DecidableEq, Repr

/-- The per-token record placed in `result.tokens[address]` by
`fetchPriceData` (lines 168–178); `market_cap` duplicates `fdv_usd`. -/
structure TokenPriceData where
  price_usd : ℚ
  fdv_usd : ℚ
  volume_usd : ℚ
  market_cap : ℚ
  name : String
  symbol : String
  total_reserve_in_usd : ℚ
  total_supply : ℚ
  deriving DecidableEq, Repr

/-- The address key of a response entry:
`token.id.split('_')[1].toLowerCase()` (line 166).  An id with no
underscore makes the JavaScript expression throw (`undefined` has no
`toLowerCase`), modelled by `Except.error`. -/
def entryAddress (id : String) : Except Unit String :=
  match (id.splitOn "_").drop 1 with
  | [] => .error ()
  | a :: _ => .ok a.toLower

/-- Conversion of one response entry to its `result.tokens` record. -/
def entryToToken (e : PriceEntry) : Except Unit (String × TokenPriceData) :=
  match entryAddress e.id with
  | .error _ => .error ()
  | .ok addr =>
      .ok (addr, ⟨e.price_usd, e.fdv_usd, e.volume_usd_h24, e.fdv_usd,
        e.name, e.symbol, e.total_reserve_in_usd, e.total_supply⟩)

/-- The `forEach` of `fetchPriceData` over the response entries: the
first malformed entry throws, discarding the partial result (the inner
`catch` then returns an empty map). -/
def entriesToTokens : List PriceEntry → Except Unit (List (String × TokenPriceData))
  | [] => .ok []
  | e :: es =>
      match entryToToken e with
      | .error _ => .error ()
      | .ok t =>
          match entriesToTokens es with
          | .error _ => .error ()
          | .ok ts => .ok (t :: ts)

/-- Result object resolved by `fetchPriceData`: the `tokens` map as an
association list in response order. -/
structure PriceResult where
  tokens : List (String × TokenPriceData)
  deriving DecidableEq, Repr

/-- Outcome of the GeckoTerminal HTTP request: a parsed entry list, or a
rejection (network error, timeout, rate-limit response). -/
inductive ApiOutcome where
  | ok (entries : List PriceEntry)
  | fail
  deriving DecidableEq, Repr

/-- Embedding of `fetchPriceData(addresses)` (lines 145–192).  The
counter `apiCallsThisMinute` is incremented first, before the request is
issued (line 148), so every invocation — successful, empty, failed or
rate-limited — consumes exactly one budget unit; the inner and outer
`catch` blocks both resolve with an empty `tokens` map, so the function
never rejects. -/
def fetchPriceData (apiCallsThisMinute : ℕ) (addresses : List String)
    (o : ApiOutcome) : ℕ × PriceResult :=
  let c := apiCallsThisMinute + 1
  match o with
  | .fail => (c, ⟨[]⟩)
  | .ok entries =>
      match entriesToTokens entries with
      | .error _ => (c, ⟨[]⟩)
      | .ok ts => (c, ⟨ts⟩)

/-- C10.  `fetchPriceData` always resolves (the embedding is a total
function): it increments the per-minute call counter exactly once per
invocation regardless of outcome, resolves with an empty `tokens` map on
any API failure, and also resolves with an empty map when the response
body is malformed (the thrown decode error is caught internally). -/
theorem spec_c10_fetchPriceData_total (c : ℕ) (addrs : List String) (o : ApiOutcome) :
    (fetchPriceData c addrs o).1 = c + 1
    ∧ (o = .fail → (fetchPriceData c addrs o).2.tokens = [])
    ∧ (∀ entries, o = .ok entries → entriesToTokens entries = .error () →
        (fetchPriceData c addrs o).2.tokens = []) := by
  refine ⟨?_, ?_, ?_⟩
  · cases o with
    | fail => rfl
    | ok entries =>
        simp only [fetchPriceData]
        cases entriesToTokens entries <;> rfl
  · rintro rfl
    rfl
  · rintro entries rfl herr
    simp only [fetchPriceData, herr]

/-- Witness for C10: a failed call from a fresh counter consumes one
budget unit and resolves with an empty map. -/
theorem spec_c10_fetchPriceData_total_witness :
    (fetchPriceData 0 ["0xaa"] .fail).1 = 1
    ∧ (fetchPriceData 0 ["0xaa"] .fail).2.tokens = [] :=
  ⟨(spec_c10_fetchPriceData_total 0 ["0xaa"] .fail).1,
    (spec_c10_fetchPriceData_total 0 ["0xaa"] .fail).2.1 rfl⟩

/-- One guarded price-API call attempt.  In the source every call to
`fetchPriceData` is immediately preceded — with no `await` in between —
by a check of `apiCallsThisMinute`: against the quota 30 in
`updatePriorityTokens` (line 216), against the safety threshold 28 in
`updateNonPriorityTokens` (lines 266 and 307). -/
inductive CallAttempt where
  | prio
  | nonprio
  deriving DecidableEq, Repr

/-- Effect of one guarded attempt on the counter: a blocked attempt
skips (no error, no increment), an admitted one increments by the single
unit `fetchPriceData` consumes. -/
def attemptStep (c : ℕ) (a : CallAttempt) : ℕ :=
  match a with
  | .prio => if 30 ≤ c then c else c + 1
  | .nonprio => if 28 ≤ c then c else c + 1

/-- Counter after a sequence of guarded attempts. -/
def attemptsRun (c : ℕ) (l : List CallAttempt) : ℕ :=
  l.foldl attemptStep c

/-- Embedding of `updatePriorityTokens` at counter granularity
(lines 215–262): skip when the quota is reached; when the priority list
is empty, run `updateTopTokensList` instead (no price-API call);
otherwise issue exactly one `fetchPriceData` call for the whole list. -/
def updatePriorityTokens (c : ℕ) (topTokens : List String) (o : ApiOutcome) : ℕ :=
  if 30 ≤ c then c
  else if topTokens = [] then c
  else (fetchPriceData c topTokens o).1

/-- The per-batch loop of `updateNonPriorityTokens` (lines 306–350):
before each batch the counter is re-checked against 28 (`break`), and
each admitted batch issues one `fetchPriceData` call. -/
def runPriceBatches (c : ℕ) : List (List String × ApiOutcome) → ℕ
  | [] => c
  | (b, o) :: rest =>
      if 28 ≤ c then c else runPriceBatches (fetchPriceData c b o).1 rest

/-- Embedding of `updateNonPriorityTokens` at counter granularity
(lines 265–356): skip outright when fewer than 2 budget units remain,
otherwise run the guarded batch loop. -/
def updateNonPriorityTokens (c : ℕ) (batches : List (List String × ApiOutcome)) : ℕ :=
  if 28 ≤ c then c else runPriceBatches c batches

/-- A refresh pass occurring inside one accounting window. -/
inductive PassEvent where
  | priorityPass (topTokens : List String) (o : ApiOutcome)
  | nonPriorityPass (batches : List (List String × ApiOutcome))

/-- Counter effect of one pass. -/
def passStep (c : ℕ) (e : PassEvent) : ℕ :=
  match e with
  | .priorityPass tt o => updatePriorityTokens c tt o
  | .nonPriorityPass bs => updateNonPriorityTokens c bs

/-- Counter at the end of a window that started at zero (the background
timer of `setupApiCallTracking` resets the counter to 0 once per
minute, line 34).  Because every price-API call adds exactly one and the
counter never decreases within the window, this value is also the total
number of price-API calls issued in the window. -/
def runWindow (es : List PassEvent) : ℕ :=
  es.foldl passStep 0

/-- A guarded attempt never pushes the counter beyond 30. -/
theorem attemptStep_le30 (c : ℕ) (a : CallAttempt) (h : c ≤ 30) :
    attemptStep c a ≤ 30 := by
  cases a <;> simp only [attemptStep] <;> split <;> omega

/-- A sequence of guarded attempts never pushes the counter beyond 30. -/
theorem attemptsRun_le30 (l : List CallAttempt) (c : ℕ) (h : c ≤ 30) :
    attemptsRun c l ≤ 30 := by
  induction l generalizing c with
  | nil => exact h
  | cons a l ih => exact ih (attemptStep c a) (attemptStep_le30 c a h)

/-- Non-priority attempts cannot move a counter already at or above the
safety threshold. -/
theorem attemptsRun_nonprio_stuck {β : Type} (bs : List β) (c : ℕ) (h : 28 ≤ c) :
    attemptsRun c (bs.map (fun _ => CallAttempt.nonprio)) = c := by
  induction bs with
  | nil => rfl
  | cons b rest ih =>
      simp only [List.map_cons, attemptsRun, List.foldl_cons, attemptStep, if_pos h]
      exact ih

/-- Each `fetchPriceData` invocation advances the counter by exactly
one, whatever the outcome. -/
theorem fetchPriceData_fst (c : ℕ) (addrs : List String) (o : ApiOutcome) :
    (fetchPriceData c addrs o).1 = c + 1 := by
  cases o with
  | fail => rfl
  | ok entries =>
      simp only [fetchPriceData]
      cases entriesToTokens entries <;> rfl

/-- The priority pass equals the fold of its (zero or one) guarded
attempts. -/
theorem updatePriorityTokens_attempts (c : ℕ) (tt : List String) (o : ApiOutcome) :
    updatePriorityTokens c tt o =
      attemptsRun c (if tt = [] then [] else [CallAttempt.prio]) := by
  unfold updatePriorityTokens
  by_cases h30 : 30 ≤ c
  · rw [if_pos h30]
    split
    · rfl
    · simp only [attemptsRun, List.foldl_cons, List.foldl_nil, attemptStep, if_pos h30]
  · rw [if_neg h30]
    split
    · rfl
    · simp only [attemptsRun, List.foldl_cons, List.foldl_nil, attemptStep, if_neg h30]
      exact fetchPriceData_fst c tt o

/-- The batch loop equals the fold of its guarded attempts. -/
theorem runPriceBatches_attempts (bs : List (List String × ApiOutcome)) (c : ℕ) :
    runPriceBatches c bs = attemptsRun c (bs.map (fun _ => CallAttempt.nonprio)) := by
  induction bs generalizing c with
  | nil => rfl
  | cons p rest ih =>
      obtain ⟨b, o⟩ := p
      simp only [runPriceBatches, List.map_cons, attemptsRun, List.foldl_cons]
      by_cases h : 28 ≤ c
      · rw [if_pos h]
        have := attemptsRun_nonprio_stuck rest c h
        simp only [attemptStep, if_pos h]
        exact (this).symm
      · rw [if_neg h]
        simp only [attemptStep, if_neg h]
        rw [fetchPriceData_fst c b o]
        exact ih (c + 1)

/-- The non-priority pass equals the fold of its guarded attempts. -/
theorem updateNonPriorityTokens_attempts (c : ℕ) (bs : List (List String × ApiOutcome)) :
    updateNonPriorityTokens c bs =
      attemptsRun c (bs.map (fun _ => CallAttempt.nonprio)) := by
  unfold updateNonPriorityTokens
  by_cases h : 28 ≤ c
  · rw [if_pos h, attemptsRun_nonprio_stuck bs c h]
  · rw [if_neg h, runPriceBatches_attempts]

/-- One pass never pushes the counter beyond 30. -/
theorem passStep_le30 (c : ℕ) (e : PassEvent) (h : c ≤ 30) : passStep c e ≤ 30 := by
  cases e with
  | priorityPass tt o =>
      rw [passStep, updatePriorityTokens_attempts]
      exact attemptsRun_le30 _ c h
  | nonPriorityPass bs =>
      rw [passStep, updateNonPriorityTokens_attempts]
      exact attemptsRun_le30 _ c h

/-- C1.  Within one accounting window (counter starting at zero after
the timer reset), any sequence of priority and non-priority passes — and
more generally any interleaving of their individually guarded call
attempts — issues at most 30 price-API calls: the counter, which every
call increments by exactly one, never exceeds the quota; the priority
pass skips (without erroring) at 30, the non-priority attempts skip at
the buffered threshold 28 and the threshold is re-checked before each
batch. -/
theorem spec_c1_budget_invariant :
    (∀ es : List PassEvent, runWindow es ≤ 30)
    ∧ (∀ l : List CallAttempt, attemptsRun 0 l ≤ 30)
    ∧ (∀ (c : ℕ) (tt : List String) (o : ApiOutcome),
        updatePriorityTokens c tt o =
          attemptsRun c (if tt = [] then [] else [CallAttempt.prio]))
    ∧ (∀ (c : ℕ) (bs : List (List String × ApiOutcome)),
        updateNonPriorityTokens c bs =
          attemptsRun c (bs.map (fun _ => CallAttempt.nonprio)))
    ∧ (∀ c : ℕ, 30 ≤ c → attemptStep c .prio = c)
    ∧ (∀ c : ℕ, 28 ≤ c → attemptStep c .nonprio = c)
    ∧ (∀ (c : ℕ) (addrs : List String) (o : ApiOutcome),
        (fetchPriceData c addrs o).1 = c + 1) := by
  refine ⟨?_, ?_, updatePriorityTokens_attempts, updateNonPriorityTokens_attempts,
    ?_, ?_, ?_⟩
  · intro es
    rw [runWindow]
    have h : ∀ c, c ≤ 30 → es.foldl passStep c ≤ 30 := by
      induction es with
      | nil => exact fun c h => h
      | cons e es ih => exact fun c h => ih (passStep c e) (passStep_le30 c e h)
    exact h 0 (by omega)
  · intro l
    exact attemptsRun_le30 l 0 (by omega)
  · intro c h
    simp only [attemptStep, if_pos h]
  · intro c h
    simp only [attemptStep, if_pos h]
  · intro c addrs o
    cases o with
    | fail => rfl
    | ok entries =>
        simp only [fetchPriceData]
        cases entriesToTokens entries <;> rfl

/-- Witness for C1: the two skip clauses at the exact thresholds. -/
theorem spec_c1_budget_invariant_witness :
    attemptStep 30 .prio = 30 ∧ attemptStep 28 .nonprio = 28 :=
  ⟨spec_c1_budget_invariant.2.2.2.2.1 30 (by decide),
    spec_c1_budget_invariant.2.2.2.2.2.1 28 (by decide)⟩

/-- One document of the `TokenPrice` collection, reduced to the fields
the rotation logic reads: the address key and the `last_updated`
timestamp used for oldest-first cycling. -/
structure PriceRec where
  contractAddress : String
  last_updated : ℕ
  deriving DecidableEq, Repr

/-- Database and scheduler state read by `updateNonPriorityTokens`: the
`Token` collection (as its address list), the `TokenPrice` collection,
and the in-memory `topTokens` priority list. -/
structure SchedulerDb where
  tokens : List String
  prices : List PriceRec
  topTokens : List String
  deriving DecidableEq, Repr

/-- Comparison underlying `sort({ last_updated: 1 })`. -/
def luLE : PriceRec → PriceRec → Prop :=
  fun a b => a.last_updated ≤ b.last_updated

instance : DecidableRel luLE := fun a b => Nat.decLe a.last_updated b.last_updated

instance : IsTotal PriceRec luLE := ⟨fun a b => Nat.le_total a.last_updated b.last_updated⟩

instance : IsTrans PriceRec luLE := ⟨fun _ _ _ => Nat.le_trans⟩

/-- The ascending `last_updated` sort of the MongoDB query
`sort({ last_updated: 1 })`; MongoDB fixes only the key order, and the
model picks one concrete stable realisation of it. -/
def sortByLastUpdated (l : List PriceRec) : List PriceRec :=
  List.insertionSort luLE l

/-- The price records matching `contractAddress: { $nin: topTokens }`. -/
def nonPriorityPrices (db : SchedulerDb) : List PriceRec :=
  db.prices.filter (fun r => decide (r.contractAddress ∉ db.topTokens))

/-- The bulk upsert executed after a successful batch fetch: every
record whose address was fetched gets `last_updated := now`; fetched
addresses without a record are inserted.  The model assumes the price
API answers for every queried address, which is the reading under which
the claim's eventual-refresh guarantee is even statable. -/
def upsertPrices (prices : List PriceRec) (addrs : List String) (now : ℕ) :
    List PriceRec :=
  (prices.map (fun r =>
    if r.contractAddress ∈ addrs then { r with last_updated := now } else r))
    ++ ((addrs.filter (fun x => decide (¬ ∃ r ∈ prices, r.contractAddress = x))).map
        (fun x => (⟨x, now⟩ : PriceRec)))

/-- The `chunkArray`-style slicing of the batch loop (`slice(i, i + 30)`
for `i = 0, 30, 60, …`), written with an explicit fuel so that it
computes by structural recursion; `chunkArray30` supplies enough fuel. -/
def chunkArray30Aux : ℕ → List String → List (List String)
  | _, [] => []
  | 0, l => [l]
  | fuel + 1, x :: xs => ((x :: xs).take 30) :: chunkArray30Aux fuel ((x :: xs).drop 30)

/-- Slices of 30 tokens, one per price-API call. -/
def chunkArray30 (l : List String) : List (List String) :=
  chunkArray30Aux l.length l

/-- Concatenating the slices recovers the original list. -/
theorem chunkArray30Aux_flatten : ∀ (fuel : ℕ) (l : List String),
    (chunkArray30Aux fuel l).flatten = l := by
  intro fuel
  induction fuel with
  | zero =>
      intro l
      cases l with
      | nil => rfl
      | cons x xs => simp [chunkArray30Aux]
  | succ fuel ih =>
      intro l
      cases l with
      | nil => rfl
      | cons x xs =>
          simp only [chunkArray30Aux, List.flatten_cons, ih]
          exact List.take_append_drop 30 (x :: xs)

/-- With enough fuel, at most `⌈length / 30⌉` slices are produced. -/
theorem chunkArray30Aux_count : ∀ (fuel : ℕ) (l : List String),
    l.length ≤ fuel → (chunkArray30Aux fuel l).length * 30 ≤ l.length + 29 := by
  intro fuel
  induction fuel with
  | zero =>
      intro l hl
      have : l = [] := List.length_eq_zero.mp (Nat.le_zero.mp hl)
      subst this
      simp [chunkArray30Aux]
  | succ fuel ih =>
      intro l hl
      cases l with
      | nil => simp [chunkArray30Aux]
      | cons x xs =>
          have hdrop : ((x :: xs).drop 30).length = (x :: xs).length - 30 :=
            List.length_drop 30 (x :: xs)
          have hlen : (x :: xs).length = xs.length + 1 := rfl
          have hfuel : ((x :: xs).drop 30).length ≤ fuel := by
            rw [hdrop]
            simp only [List.length_cons] at hl ⊢
            omega
          have hih := ih ((x :: xs).drop 30) hfuel
          simp only [chunkArray30Aux, List.length_cons]
          rw [hdrop] at hih
          simp only [List.length_cons] at hih ⊢
          omega

/-- With enough fuel every slice carries at most 30 tokens. -/
theorem chunkArray30Aux_mem_length : ∀ (fuel : ℕ) (l : List String),
    l.length ≤ fuel → ∀ b ∈ chunkArray30Aux fuel l, b.length ≤ 30 := by
  intro fuel
  induction fuel with
  | zero =>
      intro l hl b hb
      have : l = [] := List.length_eq_zero.mp (Nat.le_zero.mp hl)
      subst this
      cases hb
  | succ fuel ih =>
      intro l hl b hb
      cases l with
      | nil => cases hb
      | cons x xs =>
          simp only [chunkArray30Aux] at hb
          rcases List.mem_cons.mp hb with h | h
          · subst h
            rw [List.length_take]
            exact min_le_left _ _
          · have hfuel : ((x :: xs).drop 30).length ≤ fuel := by
              rw [List.length_drop]
              simp only [List.length_cons] at hl ⊢
              omega
            exact ih _ hfuel b h

/-- Concatenating the slices recovers the original list. -/
theorem chunkArray30_flatten (l : List String) : (chunkArray30 l).flatten = l :=
  chunkArray30Aux_flatten l.length l

/-- The guarded batch loop of `updateNonPriorityTokens` (lines 306–350):
before every batch the counter is compared against 28 (`break`), and
each admitted batch costs one counter unit (the increment performed by
`fetchPriceData`).  Returns the final counter and the batches actually
fetched. -/
def runBatchLoop (c : ℕ) : List (List String) → ℕ × List (List String)
  | [] => (c, [])
  | b :: rest =>
      if 28 ≤ c then (c, [])
      else
        let res := runBatchLoop (c + 1) rest
        (res.1, b :: res.2)

/-- When the whole budget fits, every batch is fetched. -/
theorem runBatchLoop_all : ∀ (bs : List (List String)) (c : ℕ),
    c + bs.length ≤ 28 → (runBatchLoop c bs).2 = bs := by
  intro bs
  induction bs with
  | nil => intro c _; rfl
  | cons b rest ih =>
      intro c hc
      simp only [List.length_cons] at hc
      have hguard : ¬ 28 ≤ c := by omega
      simp only [runBatchLoop, if_neg hguard]
      exact congrArg (List.cons b) (ih (c + 1) (by omega))

/-- Fetched batches all come from the input list. -/
theorem runBatchLoop_mem : ∀ (bs : List (List String)) (c : ℕ) (b : List String),
    b ∈ (runBatchLoop c bs).2 → b ∈ bs := by
  intro bs
  induction bs with
  | nil => intro c b hb; cases hb
  | cons hd rest ih =>
      intro c b hb
      simp only [runBatchLoop] at hb
      split at hb
      · cases hb
      · rcases List.mem_cons.mp hb with h | h
        · exact h ▸ List.mem_cons_self hd rest
        · exact List.mem_cons_of_mem hd (ih (c + 1) b h)

/-- At most `28 - c` batches are fetched. -/
theorem runBatchLoop_count : ∀ (bs : List (List String)) (c : ℕ),
    (runBatchLoop c bs).2.length ≤ 28 - c := by
  intro bs
  induction bs with
  | nil => intro c; simp [runBatchLoop]
  | cons b rest ih =>
      intro c
      simp only [runBatchLoop]
      split
      · simp
      · rename_i h
        have := ih (c + 1)
        simp only [List.length_cons]
        omega

/-- Embedding of `updateNonPriorityTokens` at database granularity
(lines 265–356), parametrised by the counter value at entry and the
current time.  Skip when fewer than 2 budget units remain; otherwise
select the non-priority tokens — the `maxTokens` oldest price records
when any exist, else a prefix of the token list — slice them into
batches of 30 and fetch each batch under the re-checked guard, then
upsert the fetched addresses with a fresh `last_updated`. -/
def rotationPass (apiCallsThisMinute : ℕ) (db : SchedulerDb) (now : ℕ) :
    List String × SchedulerDb :=
  if 28 ≤ apiCallsThisMinute then ([], db)
  else
    let allTokens := db.tokens.filter (fun a => decide (a ∉ db.topTokens))
    if allTokens = [] then ([], db)
    else
      let maxTokens := (28 - apiCallsThisMinute) * 30
      let oldestFirst :=
        ((sortByLastUpdated (nonPriorityPrices db)).take maxTokens).map
          (fun r => r.contractAddress)
      let tokensToUpdate :=
        if oldestFirst = [] then allTokens.take maxTokens else oldestFirst
      let fetched :=
        (runBatchLoop apiCallsThisMinute (chunkArray30 tokensToUpdate)).2.flatten
      (fetched, { db with prices := upsertPrices db.prices fetched now })

/-- Invariant under which the rotation is analysed: `a` is a tracked
token outside the priority list that owns a price record whose
`last_updated` is at most `base`, and price-record addresses are unique
(the collection has a unique index on `contractAddress`). -/
def rotationInv (a : String) (base : ℕ) (db : SchedulerDb) : Prop :=
  a ∈ db.tokens ∧ a ∉ db.topTokens ∧
    (∃ r ∈ db.prices, r.contractAddress = a ∧ r.last_updated ≤ base) ∧
    (db.prices.map PriceRec.contractAddress).Nodup

/-- Number of non-priority price records not refreshed since `base`;
the termination measure of the rotation. -/
def staleCount (base : ℕ) (db : SchedulerDb) : ℕ :=
  ((nonPriorityPrices db).filter (fun r => decide (r.last_updated ≤ base))).length

/-- Splitting a filtered count along a second boolean predicate. -/
theorem length_filter_split (l : List PriceRec) (P Q : PriceRec → Bool) :
    (l.filter (fun r => !(Q r) && P r)).length
      + (l.filter (fun r => Q r && P r)).length
      = (l.filter P).length := by
  induction l with
  | nil => rfl
  | cons r rest ih =>
      cases hq : Q r <;> cases hp : P r <;>
        simp only [List.filter_cons, hq, hp, Bool.not_true, Bool.not_false,
          Bool.false_and, Bool.true_and, Bool.and_false, Bool.and_true,
          List.length_cons, if_true, if_false] <;>
        simp <;> omega

/-- A flatten of at-most-30-long batches is bounded by 30 per batch. -/
theorem flatten_length_le (bs : List (List String)) (h : ∀ b ∈ bs, b.length ≤ 30) :
    bs.flatten.length ≤ bs.length * 30 := by
  induction bs with
  | nil => simp
  | cons b rest ih =>
      simp only [List.flatten_cons, List.length_append, List.length_cons]
      have hb := h b (List.mem_cons_self b rest)
      have hrest := ih (fun x hx => h x (List.mem_cons_of_mem b hx))
      omega

/-- The fresh-window selection of the rotation pass: the addresses of
the `840 = 28 × 30` oldest non-priority price records. -/
def oldestSelection (db : SchedulerDb) : List String :=
  ((sortByLastUpdated (nonPriorityPrices db)).take 840).map
    (fun r => r.contractAddress)

/-- The database after a fresh-window rotation pass that fetched the
oldest selection. -/
def rotatedDb (db : SchedulerDb) (now : ℕ) : SchedulerDb :=
  { db with prices := upsertPrices db.prices (oldestSelection db) now }

/-- Evaluation of a fresh-window rotation pass when both a non-priority
token and a non-priority price record exist: the selection is the
840-prefix of the `last_updated`-sorted non-priority records, every
batch is fetched (the budget check cannot trip with the counter starting
at zero), and the fetched addresses are upserted. -/
theorem rotationPass_eval (db : SchedulerDb) (now : ℕ)
    (hA : db.tokens.filter (fun x => decide (x ∉ db.topTokens)) ≠ [])
    (hS : oldestSelection db ≠ []) :
    rotationPass 0 db now = (oldestSelection db, rotatedDb db now) := by
  have hlen : (oldestSelection db).length ≤ 840 := by
    rw [oldestSelection, List.length_map, List.length_take]
    exact min_le_left _ _
  have hcount : (chunkArray30 (oldestSelection db)).length ≤ 28 := by
    have hc := chunkArray30Aux_count (oldestSelection db).length
      (oldestSelection db) (le_refl _)
    rw [chunkArray30]
    omega
  have hall : (runBatchLoop 0 (chunkArray30 (oldestSelection db))).2 =
      chunkArray30 (oldestSelection db) :=
    runBatchLoop_all _ 0 (by omega)
  have hflat : (chunkArray30 (oldestSelection db)).flatten = oldestSelection db :=
    chunkArray30Aux_flatten _ _
  rw [oldestSelection] at hS hall hflat
  simp only [rotationPass, rotatedDb, oldestSelection, Nat.sub_zero, Nat.reduceMul]
  rw [if_neg (by omega : ¬ (28 : ℕ) ≤ 0), if_neg hA, if_neg hS, hall, hflat]

/-- Single-round progress: under the invariant, a fresh-window rotation
pass either fetches `a`, or it preserves the invariant and strictly
decreases the number of stale non-priority records. -/
theorem rotationPass_progress (a : String) (base : ℕ) (db : SchedulerDb) (now : ℕ)
    (hinv : rotationInv a base db) (hnow : base < now) :
    a ∈ (rotationPass 0 db now).1 ∨
      (rotationInv a base (rotationPass 0 db now).2 ∧
        staleCount base (rotationPass 0 db now).2 < staleCount base db) := by
  obtain ⟨ha_tok, ha_top, ⟨ra, hra_mem, hra_addr, hra_ts⟩, hnodup⟩ := hinv
  have hA : db.tokens.filter (fun x => decide (x ∉ db.topTokens)) ≠ [] := by
    intro hnil
    have hmem : a ∈ db.tokens.filter (fun x => decide (x ∉ db.topTokens)) :=
      List.mem_filter.mpr ⟨ha_tok, by simpa using ha_top⟩
    rw [hnil] at hmem
    cases hmem
  have hra_np : ra ∈ nonPriorityPrices db := by
    rw [nonPriorityPrices]
    refine List.mem_filter.mpr ⟨hra_mem, ?_⟩
    rw [hra_addr]
    simpa using ha_top
  have hperm := List.perm_insertionSort luLE (nonPriorityPrices db)
  have hra_sorted : ra ∈ sortByLastUpdated (nonPriorityPrices db) := by
    rw [sortByLastUpdated]
    exact hperm.mem_iff.mpr hra_np
  have hsorted_ne : sortByLastUpdated (nonPriorityPrices db) ≠ [] :=
    List.ne_nil_of_mem hra_sorted
  have hS : oldestSelection db ≠ [] := by
    rw [oldestSelection]
    intro hnil
    have : (sortByLastUpdated (nonPriorityPrices db)).take 840 = [] := by
      simpa using hnil
    rcases List.take_eq_nil_iff.mp this with h | h
    · cases h
    · exact hsorted_ne h
  have heval := rotationPass_eval db now hA hS
  rw [heval]
  by_cases hafetch : a ∈ oldestSelection db
  · exact Or.inl hafetch
  · right
    -- every fetched address already owns a record, so the upsert inserts nothing
    have happend : (oldestSelection db).filter
        (fun x => decide (¬ ∃ r ∈ db.prices, r.contractAddress = x)) = [] := by
      refine List.filter_eq_nil_iff.mpr ?_
      intro x hx
      rw [oldestSelection] at hx
      obtain ⟨q, hq_take, hq_addr⟩ := List.mem_map.mp hx
      have hq_np : q ∈ nonPriorityPrices db :=
        hperm.mem_iff.mp (List.mem_of_mem_take hq_take)
      have hq_prices : q ∈ db.prices := (List.mem_filter.mp hq_np).1
      simp only [decide_eq_true_eq, not_not]
      exact ⟨q, hq_prices, hq_addr⟩
    have hprices2 : (rotatedDb db now).prices = db.prices.map
        (fun r => if r.contractAddress ∈ oldestSelection db
          then { r with last_updated := now } else r) := by
      rw [rotatedDb]
      simp only [upsertPrices, happend, List.map_nil, List.append_nil]
    have haddrf : ∀ r : PriceRec,
        ((fun r => if r.contractAddress ∈ oldestSelection db
          then ({ r with last_updated := now } : PriceRec) else r) r).contractAddress
          = r.contractAddress := by
      intro r
      by_cases h : r.contractAddress ∈ oldestSelection db <;> simp [h]
    have hmap_addr : (rotatedDb db now).prices.map PriceRec.contractAddress =
        db.prices.map PriceRec.contractAddress := by
      rw [hprices2, List.map_map]
      exact List.map_congr_left (fun r _ => haddrf r)
    have hra_fix : (fun r => if r.contractAddress ∈ oldestSelection db
        then ({ r with last_updated := now } : PriceRec) else r) ra = ra := by
      have : ra.contractAddress ∉ oldestSelection db := by
        rw [hra_addr]; exact hafetch
      simp [this]
    constructor
    · refine ⟨ha_tok, ha_top, ⟨ra, ?_, hra_addr, hra_ts⟩, ?_⟩
      · rw [hprices2]
        exact hra_fix ▸ List.mem_map_of_mem _ hra_mem
      · rw [hmap_addr]
        exact hnodup
    · -- the stale count strictly decreases
      have hnp2 : nonPriorityPrices (rotatedDb db now) =
          (nonPriorityPrices db).map
            (fun r => if r.contractAddress ∈ oldestSelection db
              then { r with last_updated := now } else r) := by
        rw [nonPriorityPrices, nonPriorityPrices, hprices2]
        simp only [rotatedDb]
        rw [List.filter_map]
        refine congrArg _ (List.filter_congr ?_)
        intro r _
        simp only [Function.comp_apply, haddrf r]
      rw [staleCount, staleCount, hnp2, List.filter_map, List.length_map]
      have hsplit := length_filter_split (nonPriorityPrices db)
        (fun r => decide (r.last_updated ≤ base))
        (fun r => decide (r.contractAddress ∈ oldestSelection db))
      have hcongr : (nonPriorityPrices db).filter
          ((fun r => decide (r.last_updated ≤ base)) ∘
            (fun r => if r.contractAddress ∈ oldestSelection db
              then { r with last_updated := now } else r)) =
          (nonPriorityPrices db).filter
            (fun r => !(decide (r.contractAddress ∈ oldestSelection db))
              && decide (r.last_updated ≤ base)) := by
        refine List.filter_congr ?_
        intro r _
        by_cases h : r.contractAddress ∈ oldestSelection db
        · simp [h, Nat.not_le_of_lt hnow]
        · simp [h]
      rw [hcongr]
      -- at least one fetched record was stale
      obtain ⟨x, hx⟩ := List.exists_mem_of_ne_nil (oldestSelection db) hS
      have hx' := hx
      rw [oldestSelection] at hx'
      obtain ⟨q, hq_take, hq_addr⟩ := List.mem_map.mp hx'
      have hq_np : q ∈ nonPriorityPrices db :=
        hperm.mem_iff.mp (List.mem_of_mem_take hq_take)
      have hra_not_take : ra ∉ (sortByLastUpdated (nonPriorityPrices db)).take 840 := by
        intro hmem
        refine hafetch ?_
        rw [oldestSelection]
        exact List.mem_map.mpr ⟨ra, hmem, hra_addr⟩
      have hra_drop : ra ∈ (sortByLastUpdated (nonPriorityPrices db)).drop 840 := by
        have := List.take_append_drop 840 (sortByLastUpdated (nonPriorityPrices db))
        rw [← this] at hra_sorted
        rcases List.mem_append.mp hra_sorted with h | h
        · exact absurd h hra_not_take
        · exact h
      have hsorted : List.Sorted luLE (sortByLastUpdated (nonPriorityPrices db)) :=
        List.sorted_insertionSort luLE (nonPriorityPrices db)
      have hq_ts : q.last_updated ≤ base :=
        le_trans (hsorted.rel_of_mem_take_of_mem_drop hq_take hra_drop) hra_ts
      have hq_mem_filter : q ∈ (nonPriorityPrices db).filter
          (fun r => decide (r.contractAddress ∈ oldestSelection db)
            && decide (r.last_updated ≤ base)) := by
        refine List.mem_filter.mpr ⟨hq_np, ?_⟩
        have h1 : q.contractAddress ∈ oldestSelection db := hq_addr ▸ hx
        simp [h1, hq_ts]
      have hpos := List.length_pos_of_mem hq_mem_filter
      omega

/-- Iterated fresh-window rotation passes: pass `n` runs at time
`tms n`.  Each pass begins a new accounting window, with the counter
reset to zero by the background timer. -/
def iterRotation (tms : ℕ → ℕ) (db : SchedulerDb) : ℕ → SchedulerDb
  | 0 => db
  | n + 1 => (rotationPass 0 (iterRotation tms db n) (tms n)).2

/-- Addresses fetched by the `n`-th rotation pass. -/
def fetchedAt (tms : ℕ → ℕ) (db : SchedulerDb) (n : ℕ) : List String :=
  (rotationPass 0 (iterRotation tms db n) (tms n)).1

/-- Unfolding the iteration by one initial pass. -/
theorem iterRotation_shift (tms : ℕ → ℕ) (db : SchedulerDb) :
    ∀ n, iterRotation tms db (n + 1) =
      iterRotation (fun i => tms (i + 1)) ((rotationPass 0 db (tms 0)).2) n := by
  intro n
  induction n with
  | zero => rfl
  | succ n ih =>
      show (rotationPass 0 (iterRotation tms db (n + 1)) (tms (n + 1))).2 = _
      rw [ih]
      rfl

/-- The fetched set of pass `n + 1` is the fetched set of pass `n` of
the shifted system. -/
theorem fetchedAt_shift (tms : ℕ → ℕ) (db : SchedulerDb) (n : ℕ) :
    fetchedAt tms db (n + 1) =
      fetchedAt (fun i => tms (i + 1)) ((rotationPass 0 db (tms 0)).2) n := by
  rw [fetchedAt, fetchedAt, iterRotation_shift]

/-- Strong induction on the stale count: a token satisfying the
invariant is fetched by some pass. -/
theorem rotation_eventually_aux (a : String) (base : ℕ) :
    ∀ (N : ℕ) (tms : ℕ → ℕ) (db : SchedulerDb),
      (∀ i, base < tms i) → staleCount base db ≤ N → rotationInv a base db →
      ∃ n, a ∈ fetchedAt tms db n := by
  intro N
  induction N with
  | zero =>
      intro tms db htms hstale hinv
      rcases rotationPass_progress a base db (tms 0) hinv (htms 0) with h | ⟨_, hdec⟩
      · exact ⟨0, h⟩
      · omega
  | succ N ih =>
      intro tms db htms hstale hinv
      rcases rotationPass_progress a base db (tms 0) hinv (htms 0) with h | ⟨hinv2, hdec⟩
      · exact ⟨0, h⟩
      · obtain ⟨n, hn⟩ := ih (fun i => tms (i + 1)) ((rotationPass 0 db (tms 0)).2)
          (fun i => htms (i + 1)) (by omega) hinv2
        refine ⟨n + 1, ?_⟩
        rw [fetchedAt_shift]
        exact hn

/-- C6 counterexample.  Concrete reachable state: the `Token` collection
tracks "0xaaa" and "0xbbb", neither is priority, but only "0xbbb" owns a
`TokenPrice` record (the price API never returned data for "0xaaa").
Because price records exist, every rotation pass selects from the
`TokenPrice` collection only: two consecutive fresh-window passes each
fetch exactly ["0xbbb"], never "0xaaa", and the state keeps the same
shape (only the "0xbbb" timestamp advances), so "0xaaa" is starved
forever — refuting the claim that every tracked non-priority token is
eventually refreshed. -/
def c6Db : SchedulerDb := ⟨["0xaaa", "0xbbb"], [⟨"0xbbb", 5⟩], []⟩

/-- C6 fails as stated: the tracked, non-priority token "0xaaa" is
absent from the fetched set of consecutive rotation passes, which keep
selecting only the recorded token "0xbbb". -/
theorem spec_c6_counterexample :
    "0xaaa" ∈ c6Db.tokens ∧ "0xaaa" ∉ c6Db.topTokens ∧
      (rotationPass 0 c6Db 100).1 = ["0xbbb"] ∧
      "0xaaa" ∉ (rotationPass 0 c6Db 100).1 ∧
      (rotationPass 0 ((rotationPass 0 c6Db 100).2) 200).1 = ["0xbbb"] ∧
      "0xaaa" ∉ (rotationPass 0 ((rotationPass 0 c6Db 100).2) 200).1 ∧
      (rotationPass 0 ((rotationPass 0 c6Db 100).2) 200).2 =
        ⟨["0xaaa", "0xbbb"], [⟨"0xbbb", 200⟩], []⟩ := by
  decide

/-- C6 amended.  A fresh-window rotation pass fetches at most
`(28 - used) × 30` tokens, all outside the priority list, selected in
ascending `last_updated` order; and repeated rotation passes eventually
refresh every tracked non-priority token that owns a price record — a
token with no price record, however, is never selected while any other
record exists (see the counterexample). -/
theorem spec_c6_rotation_amended :
    (∀ (c : ℕ) (db : SchedulerDb) (now : ℕ),
        (rotationPass c db now).1.length ≤ (28 - c) * 30)
    ∧ (∀ (c : ℕ) (db : SchedulerDb) (now : ℕ) (x : String),
        x ∈ (rotationPass c db now).1 → x ∉ db.topTokens)
    ∧ (∀ db : SchedulerDb,
        List.Pairwise luLE (sortByLastUpdated (nonPriorityPrices db)))
    ∧ (∀ (tms : ℕ → ℕ) (base : ℕ) (db : SchedulerDb) (a : String),
        (∀ i, base < tms i) → rotationInv a base db →
        ∃ n, a ∈ fetchedAt tms db n) := by
  refine ⟨?_, ?_, ?_, ?_⟩
  · intro c db now
    rw [rotationPass]
    split
    · simp
    · dsimp only
      split
      · simp
      · dsimp only
        have hmemlen : ∀ b ∈ (runBatchLoop c (chunkArray30
            (if ((sortByLastUpdated (nonPriorityPrices db)).take ((28 - c) * 30)).map
                (fun r => r.contractAddress) = []
              then (db.tokens.filter (fun x => decide (x ∉ db.topTokens))).take ((28 - c) * 30)
              else ((sortByLastUpdated (nonPriorityPrices db)).take ((28 - c) * 30)).map
                (fun r => r.contractAddress)))).2, b.length ≤ 30 := by
          intro b hb
          exact chunkArray30Aux_mem_length _ _ (le_refl _) b
            (runBatchLoop_mem _ c b hb)
        have hcnt := runBatchLoop_count (chunkArray30
            (if ((sortByLastUpdated (nonPriorityPrices db)).take ((28 - c) * 30)).map
                (fun r => r.contractAddress) = []
              then (db.tokens.filter (fun x => decide (x ∉ db.topTokens))).take ((28 - c) * 30)
              else ((sortByLastUpdated (nonPriorityPrices db)).take ((28 - c) * 30)).map
                (fun r => r.contractAddress))) c
        have hflat := flatten_length_le _ hmemlen
        have hmul : (runBatchLoop c (chunkArray30
            (if ((sortByLastUpdated (nonPriorityPrices db)).take ((28 - c) * 30)).map
                (fun r => r.contractAddress) = []
              then (db.tokens.filter (fun x => decide (x ∉ db.topTokens))).take ((28 - c) * 30)
              else ((sortByLastUpdated (nonPriorityPrices db)).take ((28 - c) * 30)).map
                (fun r => r.contractAddress)))).2.length * 30 ≤ (28 - c) * 30 :=
          Nat.mul_le_mul_right 30 hcnt
        omega
  · intro c db now x hx
    rw [rotationPass] at hx
    split at hx
    · cases hx
    · dsimp only at hx
      split at hx
      · cases hx
      · obtain ⟨b, hb, hxb⟩ := List.mem_flatten.mp hx
        have hb2 : b ∈ chunkArray30 _ := runBatchLoop_mem _ c b hb
        have hxsel : x ∈ (chunkArray30 (if ((sortByLastUpdated
            (nonPriorityPrices db)).take ((28 - c) * 30)).map
              (fun r => r.contractAddress) = []
            then (db.tokens.filter (fun y => decide (y ∉ db.topTokens))).take ((28 - c) * 30)
            else ((sortByLastUpdated (nonPriorityPrices db)).take ((28 - c) * 30)).map
              (fun r => r.contractAddress))).flatten :=
          List.mem_flatten.mpr ⟨b, hb2, hxb⟩
        rw [chunkArray30_flatten] at hxsel
        split at hxsel
        · have hx2 : x ∈ db.tokens.filter (fun y => decide (y ∉ db.topTokens)) :=
            List.mem_of_mem_take hxsel
          have := (List.mem_filter.mp hx2).2
          simpa using this
        · obtain ⟨q, hq_take, hq_addr⟩ := List.mem_map.mp hxsel
          have hq_np : q ∈ nonPriorityPrices db :=
            (List.perm_insertionSort luLE (nonPriorityPrices db)).mem_iff.mp
              (List.mem_of_mem_take hq_take)
          have := (List.mem_filter.mp hq_np).2
          rw [hq_addr] at this
          simpa using this
  · intro db
    exact List.sorted_insertionSort luLE (nonPriorityPrices db)
  · intro tms base db a htms hinv
    exact rotation_eventually_aux a base (staleCount base db) tms db htms
      (le_refl _) hinv

/-- Witness for the amended C6: a concrete one-record state in which the
recorded token "0xbbb" is eventually fetched. -/
theorem spec_c6_rotation_amended_witness :
    ∃ n, "0xbbb" ∈ fetchedAt (fun i => 6 + i) ⟨["0xbbb"], [⟨"0xbbb", 5⟩], []⟩ n :=
  spec_c6_rotation_amended.2.2.2 (fun i => 6 + i) 5 ⟨["0xbbb"], [⟨"0xbbb", 5⟩], []⟩
    "0xbbb" (fun i => by show (5 : ℕ) < 6 + i; omega)
    ⟨by decide, by decide, ⟨⟨"0xbbb", 5⟩, by decide, rfl, by decide⟩, by decide⟩

end TokenDataService
